import Mathlib

/-!
Verification of the core of the Jaal network-visualization dashboard
(`src/jaal/jaal.py`, class `Jaal`).

Shallow embedding conventions:

* Node and edge records mirror the dictionaries produced by the data loader;
  the extra tabular attributes live in an association list `attrs`.
  Numeric values are modelled as rationals.
* A pandas `DataFrame.query` call on a node or edge table is modelled as an
  abstract predicate wrapped in `Except Unit`, the `error` case standing for
  an expression whose evaluation raises (malformed syntax, unknown column).
* A Python exception escaping a method uncaught is modelled by the method
  returning `Except.error`; methods that catch internally return plain values.
* The in-place mutation of `self` is modelled by passing the whole `JaalState`
  in and out of every callback.
* `dict.copy()` in Python is a shallow copy; since no callback mutates a node
  or edge record reachable from two snapshots at once in a way the claims
  depend on, value semantics is faithful here.
-/

/-- Bool test: the first list is a prefix of the second (character lists). -/
def isPrefixList : List Char → List Char → Bool
  | [], _ => true
  | _ :: _, [] => false
  | a :: as, b :: bs => a == b && isPrefixList as bs

/-- Bool test: `pat` occurs as a contiguous substring of the second list.
This is Python's `pat in s` on strings. -/
def isSubstrList (pat : List Char) : List Char → Bool
  | [] => pat.isEmpty
  | c :: t => isPrefixList pat (c :: t) || isSubstrList pat t

/-- Python `sub in s` for strings (also pandas `str.contains` with a plain,
regex-metacharacter-free pattern such as "org", "wf", "table"). -/
def strContains (s sub : String) : Bool := isSubstrList sub.toList s.toList

/-- Python `search_text.lower() in label.lower()`: case-insensitive substring
containment, with `Char.toLower` standing for `str.lower`. -/
def containsCI (s sub : String) : Bool :=
  isSubstrList (sub.toList.map Char.toLower) (s.toList.map Char.toLower)

theorem isSubstrList_nil (h : List Char) : isSubstrList [] h = true := by
  cases h <;> simp [isSubstrList, isPrefixList]

/-- The empty search string matches every label (`"" in s` is true in Python). -/
theorem containsCI_empty (s : String) : containsCI s "" = true := by
  simp [containsCI]
  exact isSubstrList_nil _

/-- An attribute value taken from the input table: numeric or categorical. -/
inductive AVal where
  | num (q : ℚ)
  | str (s : String)
deriving DecidableEq, Repr

/-- A node record (`node` dict): `id`, `label`, visual attributes, and the
remaining tabular attributes. -/
structure NodeRec where
  id : String
  label : String
  size : ℚ
  color : String
  hidden : Bool
  attrs : List (String × AVal)
deriving DecidableEq, Repr

/-- An edge record (`edge` dict): `id`, endpoints (`from` and `to` in the
source; renamed `from_`/`to_` because `from` is a Lean keyword), `width`,
the inner `color.color` field, and remaining attributes. -/
structure EdgeRec where
  id : String
  from_ : String
  to_ : String
  width : ℚ
  color : String
  attrs : List (String × AVal)
deriving DecidableEq, Repr

/-- A graph snapshot: the `{'nodes': [...], 'edges': [...]}` dict. -/
structure GraphData where
  nodes : List NodeRec
  edges : List EdgeRec
deriving DecidableEq, Repr

/-- Precomputed scaling bounds for one attribute (`{'min': ..., 'max': ...}`). -/
structure ScaleBounds where
  min : ℚ
  max : ℚ
deriving DecidableEq, Repr

/-- `self.scaling_vars`: per-attribute bounds for nodes and for edges. -/
structure ScalingVars where
  node : List (String × ScaleBounds)
  edge : List (String × ScaleBounds)
deriving DecidableEq, Repr

/-- The four related-entity checkboxes stored on `self` by
`_callback_filter_nodes`. -/
structure Flags where
  add_related_entities : Bool
  include_related_org : Bool
  include_related_wf : Bool
  include_related_tables : Bool
deriving DecidableEq, Repr

/-- The mutable state of a `Jaal` instance relevant to the callbacks:
`self.data`, `self.scaling_vars`, `self.filtered_data` and the four flags.
(The two color-mapping attributes are pass-through values returned by the
color callbacks and are not needed by any claim.) -/
structure JaalState where
  data : GraphData
  scaling_vars : ScalingVars
  filtered_data : GraphData
  flags : Flags
deriving DecidableEq, Repr

/-- Embedding of `Jaal._filter_entities`: from the candidate id column, drop
ids containing an excluded marker substring, one sequential `drop` per
disabled checkbox, and return the id column. -/
def filter_entities (f : Flags) (ids : List String) : List String :=
  let l1 := if f.include_related_org then ids
            else ids.filter (fun x => !(strContains x "org"))
  let l2 := if f.include_related_wf then l1
            else l1.filter (fun x => !(strContains x "wf"))
  if f.include_related_tables then l2
  else l2.filter (fun x => !(strContains x "table"))

/-- An id survives `filter_entities` iff for each disabled checkbox it does
not contain the corresponding marker. -/
def cleanId (f : Flags) (x : String) : Bool :=
  (f.include_related_org || !(strContains x "org")) &&
  ((f.include_related_wf || !(strContains x "wf")) &&
   (f.include_related_tables || !(strContains x "table")))

theorem mem_filter_entities {f : Flags} {l : List String} {x : String} :
    x ∈ filter_entities f l ↔ x ∈ l ∧ cleanId f x = true := by
  obtain ⟨ar, o, w, t⟩ := f
  unfold filter_entities cleanId
  cases o <;> cases w <;> cases t <;>
    simp [List.mem_filter, and_assoc] <;> tauto

/-- Does `x` have an in-neighbor in `E` whose id survives the marker filter?
(Termination-measure helper for `relExpand`; not part of the source.) -/
def hasCleanPred (f : Flags) (E : List EdgeRec) (x : String) : Bool :=
  E.any (fun e => e.to_ == x && cleanId f e.from_)

/-- Second component of the termination measure of `relExpand`: 2 if the
worklist still holds an id that would be dropped by `filter_entities`,
1 if some id on the worklist has no clean in-neighbor left, else 0. -/
def tier (f : Flags) (ids : List String) (E : List EdgeRec) : Nat :=
  if ids.any (fun x => !(cleanId f x)) then 2
  else if ids.any (fun x => !(hasCleanPred f E x)) then 1
  else 0

theorem tier_le_two (f : Flags) (ids : List String) (E : List EdgeRec) :
    tier f ids E ≤ 2 := by
  unfold tier; split_ifs <;> omega

theorem tier_cons_le (f : Flags) (x : String) (ids : List String) (E : List EdgeRec) :
    tier f ids E ≤ tier f (x :: ids) E := by
  have h1 : ids.any (fun y => !(cleanId f y)) = true →
      (x :: ids).any (fun y => !(cleanId f y)) = true := by
    intro h; simp [List.any_cons, h]
  have h2 : ids.any (fun y => !(hasCleanPred f E y)) = true →
      (x :: ids).any (fun y => !(hasCleanPred f E y)) = true := by
    intro h; simp [List.any_cons, h]
  unfold tier
  split_ifs <;> first | omega | (exfalso; simp_all)

theorem length_filter_lt {α : Type} {p : α → Bool} {l : List α} {x : α}
    (hx : x ∈ l) (hpx : p x = false) : (l.filter p).length < l.length := by
  induction l with
  | nil => cases hx
  | cons a t ih =>
    by_cases hpa : p a = true
    · have hxt : x ∈ t := by
        rcases List.mem_cons.1 hx with rfl | hmem
        · rw [hpa] at hpx; cases hpx
        · exact hmem
      simpa [List.filter_cons, hpa] using ih hxt
    · have hpa' : p a = false := by revert hpa; cases p a <;> simp
      simp only [List.filter_cons, hpa', Bool.false_eq_true, if_false]
      exact Nat.lt_succ_of_le (List.length_filter_le _ _)

/-- Key decrease fact: when the (filtered) in-neighbor list of the processed
id is empty, the tier of the out-neighbor worklist is strictly below that of
the current worklist. -/
theorem tier_rin_lt (f : Flags) (id : String) (rest : List String) (E : List EdgeRec)
    (hrout : filter_entities f ((E.filter (fun e => e.to_ == id)).map (fun e => e.from_)) = []) :
    tier f (filter_entities f ((E.filter (fun e => e.from_ == id)).map (fun e => e.to_))) E
      < tier f (id :: rest) E := by
  set rin := filter_entities f ((E.filter (fun e => e.from_ == id)).map (fun e => e.to_))
    with hrin
  have hclean : ∀ x ∈ rin, cleanId f x = true := fun x hx => (mem_filter_entities.1 hx).2
  have hnp : hasCleanPred f E id = false := by
    by_contra hco
    have h' : hasCleanPred f E id = true := by
      revert hco; cases hasCleanPred f E id <;> simp
    obtain ⟨e, he, hcond⟩ := List.any_eq_true.1 h'
    rw [Bool.and_eq_true, beq_iff_eq] at hcond
    have hmem : e.from_ ∈ filter_entities f
        ((E.filter (fun e => e.to_ == id)).map (fun e => e.from_)) := by
      rw [mem_filter_entities]
      exact ⟨List.mem_map_of_mem _ (List.mem_filter.2 ⟨he, by simp [hcond.1]⟩), hcond.2⟩
    rw [hrout] at hmem
    exact absurd hmem (List.not_mem_nil _)
  have hld : rin.any (fun x => !(cleanId f x)) = false := by
    rw [List.any_eq_false]
    intro x hx
    simp [hclean x hx]
  unfold tier
  by_cases hd : (id :: rest).any (fun x => !(cleanId f x)) = true
  · rw [if_pos hd, if_neg (by simp [hld])]
    split_ifs <;> omega
  · have hidc : cleanId f id = true := by
      revert hd
      simp [List.any_cons]
      intro h _; exact h
    have hB2 : (id :: rest).any (fun x => !(hasCleanPred f E x)) = true :=
      List.any_eq_true.2 ⟨id, List.mem_cons_self id rest, by simp [hnp]⟩
    have hlp : rin.any (fun x => !(hasCleanPred f E x)) = false := by
      rw [List.any_eq_false]
      intro t ht
      obtain ⟨htm, _⟩ := mem_filter_entities.1 ht
      obtain ⟨e, hef, het⟩ := List.mem_map.1 htm
      have heE : e ∈ E := (List.mem_filter.1 hef).1
      have hfid : e.from_ = id := by
        have := (List.mem_filter.1 hef).2
        rwa [beq_iff_eq] at this
      have hcp : hasCleanPred f E t = true :=
        List.any_eq_true.2 ⟨e, heE, by simp [het, hfid, hidc]⟩
      simp [hcp]
    rw [if_neg hd, if_pos hB2, if_neg (by simp [hld]), if_neg (by simp [hlp])]
    omega

/-- When the (filtered) in-neighbor list is nonempty, dropping the traversed
edges strictly shrinks the edge list. -/
theorem length_dropE_lt (f : Flags) (id : String) (E : List EdgeRec)
    (h : filter_entities f ((E.filter (fun e => e.to_ == id)).map (fun e => e.from_)) ≠ []) :
    (E.filter (fun e =>
        !((filter_entities f ((E.filter (fun e => e.to_ == id)).map (fun e => e.from_))).contains
          e.from_))).length < E.length := by
  set rout := filter_entities f ((E.filter (fun e => e.to_ == id)).map (fun e => e.from_))
    with hroutdef
  obtain ⟨z, hz⟩ := List.exists_mem_of_ne_nil rout h
  obtain ⟨hzm, _⟩ := mem_filter_entities.1 hz
  obtain ⟨e, hef, hez⟩ := List.mem_map.1 hzm
  have heE : e ∈ E := (List.mem_filter.1 hef).1
  refine length_filter_lt heE ?_
  have hmem2 : e.from_ ∈ rout := by rw [hez]; exact hz
  have hc : rout.contains e.from_ = true := List.elem_iff.2 hmem2
  show (!(rout.contains e.from_)) = false
  rw [hc]
  rfl

/-- Embedding of `Jaal._get_related_nodes` at the level of node ids.
The Python function appends `node_map[i]` for every processed id `i` and
threads a single, in-place-shrinking `edge_df` through the loop and the
recursion; here the processed id list and the final edge list are returned,
the edge list threaded explicitly.  The result carries the invariant that
the returned edge list is a sublist of the input one (the source only ever
drops rows), which the termination measure needs. -/
def relExpand (f : Flags) (ids : List String) (E : List EdgeRec) :
    { p : List String × List EdgeRec // p.2.Sublist E } :=
  match ids with
  | [] => ⟨([], E), List.Sublist.refl E⟩
  | id :: rest =>
    let rin := filter_entities f ((E.filter (fun e => e.from_ == id)).map (fun e => e.to_))
    let rout := filter_entities f ((E.filter (fun e => e.to_ == id)).map (fun e => e.from_))
    let E1 := E.filter (fun e => !(rout.contains e.from_))
    if hrel : rin ++ rout = [] then
      let res := relExpand f rest E1
      ⟨(id :: res.val.1, res.val.2), res.property.trans (List.filter_sublist E)⟩
    else
      let mid := relExpand f (rin ++ rout) E1
      let res := relExpand f rest mid.val.2
      ⟨(id :: (mid.val.1 ++ res.val.1), res.val.2),
        res.property.trans (mid.property.trans (List.filter_sublist E))⟩
termination_by (E.length, tier f ids E, ids.length)
decreasing_by
  · show Prod.Lex (· < ·) (Prod.Lex (· < ·) (· < ·))
        (E1.length, tier f rest E1, rest.length)
        (E.length, tier f (id :: rest) E, (id :: rest).length)
    have hr0 : rout = [] := (List.append_eq_nil.1 hrel).2
    have hE1 : E1 = E := by
      show E.filter (fun e => !(rout.contains e.from_)) = E
      rw [hr0]
      exact List.filter_eq_self.2 (fun a _ => rfl)
    rw [hE1]
    rcases lt_or_eq_of_le (tier_cons_le f id rest E) with ht | ht
    · exact Prod.Lex.right _ (Prod.Lex.left _ _ ht)
    · rw [ht]
      exact Prod.Lex.right _ (Prod.Lex.right _ (by simp [List.length_cons]))
  · show Prod.Lex (· < ·) (Prod.Lex (· < ·) (· < ·))
        (E1.length, tier f (rin ++ rout) E1, (rin ++ rout).length)
        (E.length, tier f (id :: rest) E, (id :: rest).length)
    by_cases hr0 : rout = []
    · have hE1 : E1 = E := by
        show E.filter (fun e => !(rout.contains e.from_)) = E
        rw [hr0]
        exact List.filter_eq_self.2 (fun a _ => rfl)
      rw [hE1, hr0, List.append_nil]
      exact Prod.Lex.right _ (Prod.Lex.left _ _ (tier_rin_lt f id rest E hr0))
    · exact Prod.Lex.left _ _ (length_dropE_lt f id E hr0)
  · show Prod.Lex (· < ·) (Prod.Lex (· < ·) (· < ·))
        (mid.val.2.length, tier f rest mid.val.2, rest.length)
        (E.length, tier f (id :: rest) E, (id :: rest).length)
    have hsub : mid.val.2.Sublist E := mid.property.trans (List.filter_sublist E)
    rcases Nat.lt_or_ge mid.val.2.length E.length with hlt | hge
    · exact Prod.Lex.left _ _ hlt
    · have heq : mid.val.2 = E := hsub.eq_of_length (Nat.le_antisymm hsub.length_le hge)
      rw [heq]
      rcases lt_or_eq_of_le (tier_cons_le f id rest E) with ht | ht
      · exact Prod.Lex.right _ (Prod.Lex.left _ _ ht)
      · rw [ht]
        exact Prod.Lex.right _ (Prod.Lex.right _ (by simp [List.length_cons]))

/-- The ids of the node records collected by `_get_related_nodes`. -/
def relExpandIds (f : Flags) (ids : List String) (E : List EdgeRec) : List String :=
  (relExpand f ids E).val.1

/-- Fuel-indexed unfolding of `_get_related_nodes`: exactly the recursion of
the source, with `none` when the fuel runs out.  Used both to express
termination of the Python recursion and to evaluate `relExpand` on concrete
inputs. -/
def relExpandF (f : Flags) : Nat → List String → List EdgeRec →
    Option (List String × List EdgeRec)
  | 0, _, _ => none
  | _ + 1, [], E => some ([], E)
  | n + 1, id :: rest, E =>
    let rin := filter_entities f ((E.filter (fun e => e.from_ == id)).map (fun e => e.to_))
    let rout := filter_entities f ((E.filter (fun e => e.to_ == id)).map (fun e => e.from_))
    let E1 := E.filter (fun e => !(rout.contains e.from_))
    if rin ++ rout = [] then
      (relExpandF f n rest E1).map (fun q => (id :: q.1, q.2))
    else
      (relExpandF f n (rin ++ rout) E1).bind (fun q =>
        (relExpandF f n rest q.2).map (fun r => (id :: (q.1 ++ r.1), r.2)))

theorem relExpand_nil (f : Flags) (E : List EdgeRec) :
    (relExpand f [] E).val = ([], E) := by
  rw [relExpand]

theorem relExpand_cons_isolated (f : Flags) (id : String) (rest : List String)
    (E : List EdgeRec)
    (h : filter_entities f ((E.filter (fun e => e.from_ == id)).map (fun e => e.to_)) ++
         filter_entities f ((E.filter (fun e => e.to_ == id)).map (fun e => e.from_)) = []) :
    (relExpand f (id :: rest) E).val =
      (id :: (relExpand f rest
          (E.filter (fun e =>
            !((filter_entities f ((E.filter (fun e => e.to_ == id)).map (fun e => e.from_))).contains
              e.from_)))).val.1,
       (relExpand f rest
          (E.filter (fun e =>
            !((filter_entities f ((E.filter (fun e => e.to_ == id)).map (fun e => e.from_))).contains
              e.from_)))).val.2) := by
  rw [relExpand]
  rw [dif_pos h]

theorem relExpand_cons_related (f : Flags) (id : String) (rest : List String)
    (E : List EdgeRec)
    (h : ¬(filter_entities f ((E.filter (fun e => e.from_ == id)).map (fun e => e.to_)) ++
           filter_entities f ((E.filter (fun e => e.to_ == id)).map (fun e => e.from_)) = [])) :
    (relExpand f (id :: rest) E).val =
      (id :: ((relExpand f
            (filter_entities f ((E.filter (fun e => e.from_ == id)).map (fun e => e.to_)) ++
             filter_entities f ((E.filter (fun e => e.to_ == id)).map (fun e => e.from_)))
            (E.filter (fun e =>
              !((filter_entities f
                  ((E.filter (fun e => e.to_ == id)).map (fun e => e.from_))).contains
                e.from_)))).val.1 ++
          (relExpand f rest
            ((relExpand f
              (filter_entities f ((E.filter (fun e => e.from_ == id)).map (fun e => e.to_)) ++
               filter_entities f ((E.filter (fun e => e.to_ == id)).map (fun e => e.from_)))
              (E.filter (fun e =>
                !((filter_entities f
                    ((E.filter (fun e => e.to_ == id)).map (fun e => e.from_))).contains
                  e.from_)))).val.2)).val.1),
       (relExpand f rest
            ((relExpand f
              (filter_entities f ((E.filter (fun e => e.from_ == id)).map (fun e => e.to_)) ++
               filter_entities f ((E.filter (fun e => e.to_ == id)).map (fun e => e.from_)))
              (E.filter (fun e =>
                !((filter_entities f
                    ((E.filter (fun e => e.to_ == id)).map (fun e => e.from_))).contains
                  e.from_)))).val.2)).val.2) := by
  rw [relExpand]
  rw [dif_neg h]

theorem relExpandF_sound (f : Flags) :
    ∀ (n : Nat) (ids : List String) (E : List EdgeRec) (p : List String × List EdgeRec),
      relExpandF f n ids E = some p → (relExpand f ids E).val = p := by
  intro n
  induction n with
  | zero => intro ids E p h; simp [relExpandF] at h
  | succ n ih =>
    intro ids E p h
    cases ids with
    | nil =>
      simp only [relExpandF] at h
      rw [relExpand_nil]
      exact Option.some.inj h
    | cons id rest =>
      simp only [relExpandF] at h
      by_cases hrel :
          filter_entities f ((E.filter (fun e => e.from_ == id)).map (fun e => e.to_)) ++
          filter_entities f ((E.filter (fun e => e.to_ == id)).map (fun e => e.from_)) = []
      · rw [if_pos hrel] at h
        rw [relExpand_cons_isolated f id rest E hrel]
        obtain ⟨q, hq, rfl⟩ := Option.map_eq_some'.1 h
        rw [ih _ _ _ hq]
      · rw [if_neg hrel] at h
        rw [relExpand_cons_related f id rest E hrel]
        obtain ⟨q, hq, h2⟩ := Option.bind_eq_some.1 h
        obtain ⟨r, hr, rfl⟩ := Option.map_eq_some'.1 h2
        rw [ih _ _ _ hq, ih _ _ _ hr]

theorem relExpandF_sub (f : Flags) (n : Nat) (ids : List String) (E : List EdgeRec)
    (p : List String × List EdgeRec) (h : relExpandF f n ids E = some p) :
    p.2.Sublist E :=
  relExpandF_sound f n ids E p h ▸ (relExpand f ids E).property

theorem relExpandF_mono (f : Flags) :
    ∀ (n m : Nat), n ≤ m → ∀ (ids : List String) (E : List EdgeRec)
      (p : List String × List EdgeRec),
      relExpandF f n ids E = some p → relExpandF f m ids E = some p := by
  intro n
  induction n with
  | zero => intro m _ ids E p h; simp [relExpandF] at h
  | succ n ih =>
    intro m hnm ids E p h
    obtain ⟨m', rfl⟩ : ∃ m', m = m' + 1 := ⟨m - 1, by omega⟩
    have hnm' : n ≤ m' := by omega
    cases ids with
    | nil => simpa [relExpandF] using h
    | cons id rest =>
      simp only [relExpandF] at h ⊢
      by_cases hrel :
          filter_entities f ((E.filter (fun e => e.from_ == id)).map (fun e => e.to_)) ++
          filter_entities f ((E.filter (fun e => e.to_ == id)).map (fun e => e.from_)) = []
      · rw [if_pos hrel] at h ⊢
        obtain ⟨q, hq, rfl⟩ := Option.map_eq_some'.1 h
        rw [ih m' hnm' _ _ _ hq]
        rfl
      · rw [if_neg hrel] at h ⊢
        obtain ⟨q, hq, h2⟩ := Option.bind_eq_some.1 h
        obtain ⟨r, hr, rfl⟩ := Option.map_eq_some'.1 h2
        rw [ih m' hnm' _ _ _ hq]
        simp only [Option.some_bind]
        rw [ih m' hnm' _ _ _ hr]
        rfl

/-- Termination of `_get_related_nodes`: for every worklist and edge list
some finite fuel suffices for the literal recursion to return.  The proof
is a lexicographic strong induction on (edge count, tier, worklist length),
mirroring the cycle guard of the source: whenever the recursion descends
with an undiminished edge list, the tier strictly drops, and the edge list
can never grow. -/
theorem relExpandF_total (f : Flags) :
    ∀ (a b c : Nat) (ids : List String) (E : List EdgeRec),
      E.length ≤ a → tier f ids E ≤ b → ids.length ≤ c →
      ∃ n p, relExpandF f n ids E = some p := by
  intro a
  induction a using Nat.strong_induction_on with
  | _ a iha =>
  intro b
  induction b using Nat.strong_induction_on with
  | _ b ihb =>
  intro c
  induction c using Nat.strong_induction_on with
  | _ c ihc =>
  intro ids E hE htier hlen
  cases ids with
  | nil => exact ⟨1, ([], E), rfl⟩
  | cons id rest =>
    have hc1 : 1 ≤ c := le_trans (by simp) hlen
    by_cases hr0 :
        filter_entities f ((E.filter (fun e => e.to_ == id)).map (fun e => e.from_)) = []
    · -- no surviving in-neighbors: the edge list is left unchanged
      have hE1 : E.filter (fun e =>
          !((filter_entities f
              ((E.filter (fun e => e.to_ == id)).map (fun e => e.from_))).contains
            e.from_)) = E := by
        rw [hr0]
        exact List.filter_eq_self.2 (fun a _ => rfl)
      by_cases hrel :
          filter_entities f ((E.filter (fun e => e.from_ == id)).map (fun e => e.to_)) ++
          filter_entities f ((E.filter (fun e => e.to_ == id)).map (fun e => e.from_)) = []
      · -- isolated id: only the loop over `rest` remains
        obtain ⟨n1, p1, h1⟩ := ihc (c - 1) (by omega) rest E hE
          (le_trans (tier_cons_le f id rest E) htier) (by simp at hlen; omega)
        refine ⟨n1 + 1, (id :: p1.1, p1.2), ?_⟩
        simp only [relExpandF]
        rw [if_pos hrel, hE1, h1]
        rfl
      · -- recursion on the filtered out-neighbors with the same edge list:
        -- the tier strictly drops
        have hrw : filter_entities f
            ((E.filter (fun e => e.from_ == id)).map (fun e => e.to_)) ++
            filter_entities f ((E.filter (fun e => e.to_ == id)).map (fun e => e.from_)) =
            filter_entities f ((E.filter (fun e => e.from_ == id)).map (fun e => e.to_)) := by
          rw [hr0, List.append_nil]
        have htlt : tier f (filter_entities f
            ((E.filter (fun e => e.from_ == id)).map (fun e => e.to_))) E
            < tier f (id :: rest) E := tier_rin_lt f id rest E hr0
        obtain ⟨n1, p1, h1⟩ := ihb (tier f (filter_entities f
            ((E.filter (fun e => e.from_ == id)).map (fun e => e.to_))) E)
          (lt_of_lt_of_le htlt htier)
          (filter_entities f ((E.filter (fun e => e.from_ == id)).map (fun e => e.to_))).length
          (filter_entities f ((E.filter (fun e => e.from_ == id)).map (fun e => e.to_))) E
          hE le_rfl le_rfl
        have hsub : p1.2.Sublist E := relExpandF_sub f n1 _ _ _ h1
        have hrest : ∃ n2 p2, relExpandF f n2 rest p1.2 = some p2 := by
          rcases Nat.lt_or_ge p1.2.length E.length with hlt2 | hge
          · exact iha p1.2.length (lt_of_lt_of_le hlt2 hE) 2 rest.length rest p1.2
              le_rfl (tier_le_two f rest p1.2) le_rfl
          · have heq : p1.2 = E :=
              hsub.eq_of_length (le_antisymm hsub.length_le hge)
            rw [heq]
            exact ihc (c - 1) (by omega) rest E hE
              (le_trans (tier_cons_le f id rest E) htier) (by simp at hlen; omega)
        obtain ⟨n2, p2, h2⟩ := hrest
        refine ⟨max n1 n2 + 1, (id :: (p1.1 ++ p2.1), p2.2), ?_⟩
        simp only [relExpandF]
        rw [if_neg hrel, hrw, hE1,
          relExpandF_mono f n1 (max n1 n2) (le_max_left n1 n2) _ _ _ h1]
        simp only [Option.some_bind]
        rw [relExpandF_mono f n2 (max n1 n2) (le_max_right n1 n2) _ _ _ h2]
        rfl
    · -- surviving in-neighbors exist: dropping their edges shrinks the list
      have hrel :
          ¬(filter_entities f ((E.filter (fun e => e.from_ == id)).map (fun e => e.to_)) ++
            filter_entities f ((E.filter (fun e => e.to_ == id)).map (fun e => e.from_)) = []) := by
        intro hco
        exact hr0 (List.append_eq_nil.1 hco).2
      have hElt : (E.filter (fun e =>
          !((filter_entities f
              ((E.filter (fun e => e.to_ == id)).map (fun e => e.from_))).contains
            e.from_))).length < E.length := length_dropE_lt f id E hr0
      obtain ⟨n1, p1, h1⟩ := iha (E.filter (fun e =>
          !((filter_entities f
              ((E.filter (fun e => e.to_ == id)).map (fun e => e.from_))).contains
            e.from_))).length (lt_of_lt_of_le hElt hE) 2
        (filter_entities f ((E.filter (fun e => e.from_ == id)).map (fun e => e.to_)) ++
         filter_entities f ((E.filter (fun e => e.to_ == id)).map (fun e => e.from_))).length
        (filter_entities f ((E.filter (fun e => e.from_ == id)).map (fun e => e.to_)) ++
         filter_entities f ((E.filter (fun e => e.to_ == id)).map (fun e => e.from_)))
        (E.filter (fun e =>
          !((filter_entities f
              ((E.filter (fun e => e.to_ == id)).map (fun e => e.from_))).contains
            e.from_)))
        le_rfl (tier_le_two f _ _) le_rfl
      have hsub : p1.2.Sublist (E.filter (fun e =>
          !((filter_entities f
              ((E.filter (fun e => e.to_ == id)).map (fun e => e.from_))).contains
            e.from_))) := relExpandF_sub f n1 _ _ _ h1
      have hlen2 : p1.2.length < E.length := lt_of_le_of_lt hsub.length_le hElt
      obtain ⟨n2, p2, h2⟩ := iha p1.2.length (lt_of_lt_of_le hlen2 hE) 2 rest.length
        rest p1.2 le_rfl (tier_le_two f rest p1.2) le_rfl
      refine ⟨max n1 n2 + 1, (id :: (p1.1 ++ p2.1), p2.2), ?_⟩
      simp only [relExpandF]
      rw [if_neg hrel,
        relExpandF_mono f n1 (max n1 n2) (le_max_left n1 n2) _ _ _ h1]
      simp only [Option.some_bind]
      rw [relExpandF_mono f n2 (max n1 n2) (le_max_right n1 n2) _ _ _ h2]
      rfl

/-- The fuel semantics of `_get_related_nodes` reaches, at some finite fuel,
exactly the value of the total embedding `relExpand`. -/
theorem relExpand_reached (f : Flags) (ids : List String) (E : List EdgeRec) :
    ∃ n, relExpandF f n ids E = some ((relExpand f ids E).val) := by
  obtain ⟨n, p, h⟩ := relExpandF_total f E.length 2 ids.length ids E le_rfl
    (tier_le_two f ids E) le_rfl
  exact ⟨n, by rw [h, relExpandF_sound f n ids E p h]⟩

/-- Undirected reachability from a seed set along a fixed edge list: the
notion of "related to a seed node" used by the spec (the source follows
edges out of and into each visited node alike). -/
inductive ReachableFrom (E : List EdgeRec) (seeds : List String) : String → Prop where
  | seed (x : String) (hx : x ∈ seeds) : ReachableFrom E seeds x
  | fwd (y : String) (e : EdgeRec) (hy : ReachableFrom E seeds y) (he : e ∈ E)
      (hs : e.from_ = y) : ReachableFrom E seeds e.to_
  | bwd (y : String) (e : EdgeRec) (hy : ReachableFrom E seeds y) (he : e ∈ E)
      (hd : e.to_ = y) : ReachableFrom E seeds e.from_

/-- Every id collected by the fuel recursion is either on the initial
worklist or survived `filter_entities` (is clean). -/
theorem relExpandF_mem (f : Flags) :
    ∀ (n : Nat) (ids : List String) (E : List EdgeRec) (p : List String × List EdgeRec),
      relExpandF f n ids E = some p →
      ∀ x ∈ p.1, x ∈ ids ∨ cleanId f x = true := by
  intro n
  induction n with
  | zero => intro ids E p h; simp [relExpandF] at h
  | succ n ih =>
    intro ids E p h
    cases ids with
    | nil =>
      simp only [relExpandF] at h
      obtain rfl := Option.some.inj h
      intro x hx; cases hx
    | cons id rest =>
      simp only [relExpandF] at h
      by_cases hrel :
          filter_entities f ((E.filter (fun e => e.from_ == id)).map (fun e => e.to_)) ++
          filter_entities f ((E.filter (fun e => e.to_ == id)).map (fun e => e.from_)) = []
      · rw [if_pos hrel] at h
        obtain ⟨q, hq, rfl⟩ := Option.map_eq_some'.1 h
        intro x hx
        rcases List.mem_cons.1 hx with rfl | hx2
        · exact Or.inl (List.mem_cons_self _ _)
        · rcases ih _ _ _ hq x hx2 with hin | hcl
          · exact Or.inl (List.mem_cons_of_mem _ hin)
          · exact Or.inr hcl
      · rw [if_neg hrel] at h
        obtain ⟨q, hq, h2⟩ := Option.bind_eq_some.1 h
        obtain ⟨r, hr, rfl⟩ := Option.map_eq_some'.1 h2
        intro x hx
        rcases List.mem_cons.1 hx with rfl | hx2
        · exact Or.inl (List.mem_cons_self _ _)
        rcases List.mem_append.1 hx2 with hxq | hxr
        · rcases ih _ _ _ hq x hxq with hin | hcl
          · rcases List.mem_append.1 hin with h1 | h1
            · exact Or.inr (mem_filter_entities.1 h1).2
            · exact Or.inr (mem_filter_entities.1 h1).2
          · exact Or.inr hcl
        · rcases ih _ _ _ hr x hxr with hin | hcl
          · exact Or.inl (List.mem_cons_of_mem _ hin)
          · exact Or.inr hcl

/-- Every id collected by the fuel recursion is reachable (in the undirected
sense) from the initial worklist, via edges of any superset of the working
edge list. -/
theorem relExpandF_reach (f : Flags) (E0 : List EdgeRec) (seeds : List String) :
    ∀ (n : Nat) (ids : List String) (E : List EdgeRec) (p : List String × List EdgeRec),
      relExpandF f n ids E = some p →
      (∀ e ∈ E, e ∈ E0) →
      (∀ i ∈ ids, ReachableFrom E0 seeds i) →
      ∀ x ∈ p.1, ReachableFrom E0 seeds x := by
  intro n
  induction n with
  | zero => intro ids E p h; simp [relExpandF] at h
  | succ n ih =>
    intro ids E p h hE0 hids
    cases ids with
    | nil =>
      simp only [relExpandF] at h
      obtain rfl := Option.some.inj h
      intro x hx; cases hx
    | cons id rest =>
      have hid : ReachableFrom E0 seeds id := hids id (List.mem_cons_self _ _)
      have hrest : ∀ i ∈ rest, ReachableFrom E0 seeds i :=
        fun i hi => hids i (List.mem_cons_of_mem _ hi)
      have hrel_reach : ∀ x ∈
          filter_entities f ((E.filter (fun e => e.from_ == id)).map (fun e => e.to_)) ++
          filter_entities f ((E.filter (fun e => e.to_ == id)).map (fun e => e.from_)),
          ReachableFrom E0 seeds x := by
        intro x hx
        rcases List.mem_append.1 hx with h1 | h1
        · obtain ⟨hm, _⟩ := mem_filter_entities.1 h1
          obtain ⟨e, hef, hex⟩ := List.mem_map.1 hm
          have heE : e ∈ E := (List.mem_filter.1 hef).1
          have hfr : e.from_ = id := by
            have := (List.mem_filter.1 hef).2
            rwa [beq_iff_eq] at this
          exact hex ▸ ReachableFrom.fwd id e hid (hE0 e heE) hfr
        · obtain ⟨hm, _⟩ := mem_filter_entities.1 h1
          obtain ⟨e, hef, hex⟩ := List.mem_map.1 hm
          have heE : e ∈ E := (List.mem_filter.1 hef).1
          have hto : e.to_ = id := by
            have := (List.mem_filter.1 hef).2
            rwa [beq_iff_eq] at this
          exact hex ▸ ReachableFrom.bwd id e hid (hE0 e heE) hto
      have hE1sub : ∀ e ∈ E.filter (fun e =>
          !((filter_entities f
              ((E.filter (fun e => e.to_ == id)).map (fun e => e.from_))).contains
            e.from_)), e ∈ E0 :=
        fun e he => hE0 e (List.mem_filter.1 he).1
      simp only [relExpandF] at h
      by_cases hrel :
          filter_entities f ((E.filter (fun e => e.from_ == id)).map (fun e => e.to_)) ++
          filter_entities f ((E.filter (fun e => e.to_ == id)).map (fun e => e.from_)) = []
      · rw [if_pos hrel] at h
        obtain ⟨q, hq, rfl⟩ := Option.map_eq_some'.1 h
        intro x hx
        rcases List.mem_cons.1 hx with rfl | hx2
        · exact hid
        · exact ih _ _ _ hq hE1sub hrest x hx2
      · rw [if_neg hrel] at h
        obtain ⟨q, hq, h2⟩ := Option.bind_eq_some.1 h
        obtain ⟨r, hr, rfl⟩ := Option.map_eq_some'.1 h2
        have hqE0 : ∀ e ∈ q.2, e ∈ E0 :=
          fun e he => hE1sub e ((relExpandF_sub f n _ _ _ hq).mem he)
        intro x hx
        rcases List.mem_cons.1 hx with rfl | hx2
        · exact hid
        rcases List.mem_append.1 hx2 with hxq | hxr
        · exact ih _ _ _ hq hE1sub hrel_reach x hxq
        · exact ih _ _ _ hr hqE0 hrest x hxr

/-- Every id collected by `_get_related_nodes` is a seed or clean. -/
theorem relExpandIds_mem (f : Flags) (ids : List String) (E : List EdgeRec) :
    ∀ x ∈ relExpandIds f ids E, x ∈ ids ∨ cleanId f x = true := by
  obtain ⟨n, h⟩ := relExpand_reached f ids E
  exact fun x hx => relExpandF_mem f n ids E _ h x hx

/-- Every id collected by `_get_related_nodes` is reachable from the seeds. -/
theorem relExpandIds_reach (f : Flags) (ids : List String) (E : List EdgeRec) :
    ∀ x ∈ relExpandIds f ids E, ReachableFrom E ids x := by
  obtain ⟨n, h⟩ := relExpand_reached f ids E
  exact fun x hx => relExpandF_reach f E ids n ids E _ h (fun _ he => he)
    (fun i hi => ReachableFrom.seed i hi) x hx

/-- Modelled from the spec: the default visual constants (`DEFAULT_COLOR`,
`DEFAULT_NODE_SIZE`, `DEFAULT_EDGE_SIZE`) come from the layout module, which
is not among the sources; their concrete values are irrelevant to every
claim, only their fixedness matters. -/
def DEFAULT_COLOR : String := "default"

/-- Modelled from the spec: default node size constant of the layout module. -/
def DEFAULT_NODE_SIZE : ℚ := 7

/-- Modelled from the spec: default edge width constant of the layout module. -/
def DEFAULT_EDGE_SIZE : ℚ := 1

/-- Modelled from the spec: `get_distinct_colors n` of the layout module
produces a list of `n` distinct colors; only its length matters here. -/
def get_distinct_colors (n : Nat) : List String :=
  (List.range n).map (fun i => "hue" ++ toString i)

/-- Python `node[a]` for a tabular attribute: `none` models a `KeyError`. -/
def nodeAttr (n : NodeRec) (a : String) : Option AVal := n.attrs.lookup a

/-- Python `edge[a]` for a tabular attribute: `none` models a `KeyError`. -/
def edgeAttr (e : EdgeRec) (a : String) : Option AVal := e.attrs.lookup a

/-- Embedding of `Jaal._callback_search_graph`: mark every displayed node
hidden unless its label contains the search text case-insensitively.  The
instance state `st` is read but never written by the source, so it is
returned unchanged; only the displayed snapshot `graph_data` is rebuilt. -/
def callback_search_graph (st : JaalState) (graph_data : GraphData)
    (search_text : String) : JaalState × GraphData :=
  let nodes := graph_data.nodes.map (fun node =>
    if !(containsCI node.label search_text) then { node with hidden := true }
    else { node with hidden := false })
  (st, { graph_data with nodes := nodes })

/-- Python `node_map[i]` on the map built from the node list (`none` models
a `KeyError`). -/
def findNode (nodes : List NodeRec) (i : String) : Option NodeRec :=
  nodes.find? (fun n => n.id == i)

/-- Sequential collection of `node_map[i]` for a list of ids; the first
missing id aborts with an error, as the first `KeyError` would. -/
def lookupIds (nodes : List NodeRec) : List String → Except Unit (List NodeRec)
  | [] => Except.ok []
  | i :: rest =>
    match findNode nodes i with
    | none => Except.error ()
    | some n =>
      match lookupIds nodes rest with
      | Except.error e => Except.error e
      | Except.ok l => Except.ok (n :: l)

/-- Final part of `Jaal._callback_filter_nodes`: look the collected seed and
related ids up in the node map and install them as the filtered node
collection; a lookup failure (`KeyError`) reverts the displayed data to the
full dataset, as the surrounding try/except does. -/
def filterNodesAssemble (st : JaalState) (fl : Flags) (found rel : List String) :
    JaalState × GraphData :=
  match lookupIds st.data.nodes (found ++ rel) with
  | Except.error _ => ({ st with flags := fl, filtered_data := st.data }, st.data)
  | Except.ok nodes =>
    ({ st with flags := fl, filtered_data := { st.data with nodes := nodes } },
     { st.data with nodes := nodes })

/-- Embedding of `Jaal._callback_filter_nodes`: store the four checkbox
flags, reset `filtered_data` to (a shallow copy of) the full dataset,
evaluate the query over the node table to get the seed ids, append the seed
records and, when requested, all records collected by
`_get_related_nodes`; any failure (query evaluation, node-map lookup)
reverts the displayed data to the full dataset. -/
def callback_filter_nodes (st : JaalState) (graph_data : GraphData)
    (query : Except Unit (NodeRec → Bool)) (fl : Flags) : JaalState × GraphData :=
  let st0 := { st with flags := fl, filtered_data := st.data }
  match query with
  | Except.error _ => (st0, st0.data)
  | Except.ok p =>
    let found_nodes_ids := (st0.filtered_data.nodes.filter p).map (fun n => n.id)
    let rel_ids :=
      if fl.add_related_entities then
        relExpandIds fl found_nodes_ids st0.filtered_data.edges
      else []
    filterNodesAssemble st fl found_nodes_ids rel_ids

/-- Embedding of `Jaal._callback_filter_edges`: reset `filtered_data` to the
full dataset (so the edge table queried is the full edge table), evaluate
the query to a list of matching edge ids, and rebuild the filtered edge
collection to exactly those ids; on failure revert to the full dataset. -/
def callback_filter_edges (st : JaalState) (graph_data : GraphData)
    (query : Except Unit (EdgeRec → Bool)) : JaalState × GraphData :=
  let st0 := { st with filtered_data := st.data }
  match query with
  | Except.error _ => (st0, st0.data)
  | Except.ok p =>
    let edges_list := (st0.filtered_data.edges.filter p).map (fun e => e.id)
    let edges := st0.filtered_data.edges.filter (fun e => edges_list.contains e.id)
    let st1 := { st0 with filtered_data := { st0.filtered_data with edges := edges } }
    (st1, st1.filtered_data)

/-- Re-derive the filtered node view after a color/size pass over the full
dataset: keep exactly the full-data nodes whose id is currently displayed
(lines `filtered_nodes = [x['id'] ...]` / list comprehension of the source). -/
def refilterNodes (st : JaalState) : JaalState :=
  let filtered_nodes := st.filtered_data.nodes.map (fun x => x.id)
  { st with filtered_data :=
      { st.filtered_data with nodes :=
          st.data.nodes.filter (fun x => filtered_nodes.contains x.id) } }

/-- Re-derive the filtered edge view after a color/size pass (edge variant). -/
def refilterEdges (st : JaalState) : JaalState :=
  let filtered_edges := st.filtered_data.edges.map (fun x => x.id)
  { st with filtered_data :=
      { st.filtered_data with edges :=
          st.data.edges.filter (fun x => filtered_edges.contains x.id) } }

/-- Order-preserving first-occurrence deduplication: pandas
`Series.unique()` on the materialized attribute values. -/
def listUniq (l : List AVal) : List AVal :=
  l.foldl (fun acc x => if acc.contains x then acc else acc ++ [x]) []

/-- The per-node loop of `_callback_color_nodes`: assign
`value_color_mapping[node[v]]` to each node in order.  A node lacking the
attribute raises (`KeyError`); the prefix processed before it keeps its new
colors, the rest is untouched, and the Bool reports success. -/
def applyNodeColors (m : List (AVal × String)) (v : String) :
    List NodeRec → List NodeRec × Bool
  | [] => ([], true)
  | n :: rest =>
    match nodeAttr n v with
    | none => (n :: rest, false)
    | some a =>
      let n1 := { n with color := (m.lookup a).getD DEFAULT_COLOR }
      let rec1 := applyNodeColors m v rest
      (n1 :: rec1.1, rec1.2)

/-- The per-edge loop of `_callback_color_edges` (writes the nested
`edge['color']['color']`, modelled as the flat `color` field). -/
def applyEdgeColors (m : List (AVal × String)) (v : String) :
    List EdgeRec → List EdgeRec × Bool
  | [] => ([], true)
  | e :: rest =>
    match edgeAttr e v with
    | none => (e :: rest, false)
    | some a =>
      let e1 := { e with color := (m.lookup a).getD DEFAULT_COLOR }
      let rec1 := applyEdgeColors m v rest
      (e1 :: rec1.1, rec1.2)

/-- The per-node loop of `_callback_size_nodes`:
`node['size'] = node['size'] + 20*(x - min)/(max - min)`.  A missing or
non-numeric attribute raises; so does `max - min == 0`, the division by
zero of the unguarded `scale_val` (modelled as the error case, since the
quotient is undefined there). -/
def applyNodeSizes (minn maxx : ℚ) (v : String) :
    List NodeRec → List NodeRec × Bool
  | [] => ([], true)
  | n :: rest =>
    match nodeAttr n v with
    | some (AVal.num x) =>
      if maxx - minn == 0 then (n :: rest, false)
      else
        let n1 := { n with size := n.size + 20 * (x - minn) / (maxx - minn) }
        let rec1 := applyNodeSizes minn maxx v rest
        (n1 :: rec1.1, rec1.2)
    | _ => (n :: rest, false)

/-- The per-edge loop of `_callback_size_edges`:
`edge['width'] = 20*(x - min)/(max - min)` (direct assignment, unlike the
additive node case). -/
def applyEdgeSizes (minn maxx : ℚ) (v : String) :
    List EdgeRec → List EdgeRec × Bool
  | [] => ([], true)
  | e :: rest =>
    match edgeAttr e v with
    | some (AVal.num x) =>
      if maxx - minn == 0 then (e :: rest, false)
      else
        let e1 := { e with width := 20 * (x - minn) / (maxx - minn) }
        let rec1 := applyEdgeSizes minn maxx v rest
        (e1 :: rec1.1, rec1.2)
    | _ => (e :: rest, false)

/-- Embedding of `Jaal._callback_color_nodes`.  With the `'None'` sentinel,
reset all colors on the full dataset and refilter.  Otherwise read the
attribute column (`KeyError` if no node carries it), build the
value-to-color mapping from its distinct values, recolor every node of the
full dataset, and refilter.  There is no try/except in the source: a missing
attribute propagates as an error. -/
def callback_color_nodes (st : JaalState) (graph_data : GraphData)
    (color_nodes_value : String) :
    JaalState × Except Unit (GraphData × List (AVal × String)) :=
  if color_nodes_value == "None" then
    let data1 :=
      { st.data with
        nodes := st.data.nodes.map (fun node => { node with color := DEFAULT_COLOR }) }
    let st1 := refilterNodes { st with data := data1 }
    (st1, Except.ok (st1.filtered_data, []))
  else
    if !(st.data.nodes.any (fun n => (nodeAttr n color_nodes_value).isSome)) then
      (st, Except.error ())
    else
      let unique_values :=
        listUniq (st.data.nodes.filterMap (fun n => nodeAttr n color_nodes_value))
      let colors := get_distinct_colors unique_values.length
      let value_color_mapping := unique_values.zip colors
      let pass := applyNodeColors value_color_mapping color_nodes_value st.data.nodes
      let st1 := { st with data := { st.data with nodes := pass.1 } }
      if pass.2 then
        let st2 := refilterNodes st1
        (st2, Except.ok (st2.filtered_data, value_color_mapping))
      else (st1, Except.error ())

/-- Embedding of `Jaal._callback_color_edges` (edge variant of
`callback_color_nodes`, writing the nested color field). -/
def callback_color_edges (st : JaalState) (graph_data : GraphData)
    (color_edges_value : String) :
    JaalState × Except Unit (GraphData × List (AVal × String)) :=
  if color_edges_value == "None" then
    let data1 :=
      { st.data with
        edges := st.data.edges.map (fun edge => { edge with color := DEFAULT_COLOR }) }
    let st1 := refilterEdges { st with data := data1 }
    (st1, Except.ok (st1.filtered_data, []))
  else
    if !(st.data.edges.any (fun e => (edgeAttr e color_edges_value).isSome)) then
      (st, Except.error ())
    else
      let unique_values :=
        listUniq (st.data.edges.filterMap (fun e => edgeAttr e color_edges_value))
      let colors := get_distinct_colors unique_values.length
      let value_color_mapping := unique_values.zip colors
      let pass := applyEdgeColors value_color_mapping color_edges_value st.data.edges
      let st1 := { st with data := { st.data with edges := pass.1 } }
      if pass.2 then
        let st2 := refilterEdges st1
        (st2, Except.ok (st2.filtered_data, value_color_mapping))
      else (st1, Except.error ())

/-- Embedding of `Jaal._callback_size_nodes`.  With the `'None'` sentinel,
reset all sizes and refilter.  Otherwise fetch the scaling bounds
(`KeyError` if the attribute has no bounds), add the scaled offset to every
node size, and refilter.  No try/except in the source; no guard on
`max == min`. -/
def callback_size_nodes (st : JaalState) (graph_data : GraphData)
    (size_nodes_value : String) : JaalState × Except Unit GraphData :=
  if size_nodes_value == "None" then
    let data1 :=
      { st.data with
        nodes := st.data.nodes.map (fun node => { node with size := DEFAULT_NODE_SIZE }) }
    let st1 := refilterNodes { st with data := data1 }
    (st1, Except.ok st1.filtered_data)
  else
    match st.scaling_vars.node.lookup size_nodes_value with
    | none => (st, Except.error ())
    | some b =>
      let pass := applyNodeSizes b.min b.max size_nodes_value st.data.nodes
      let st1 := { st with data := { st.data with nodes := pass.1 } }
      if pass.2 then
        let st2 := refilterNodes st1
        (st2, Except.ok st2.filtered_data)
      else (st1, Except.error ())

/-- Embedding of `Jaal._callback_size_edges` (edge variant; the width is
assigned, not incremented). -/
def callback_size_edges (st : JaalState) (graph_data : GraphData)
    (size_edges_value : String) : JaalState × Except Unit GraphData :=
  if size_edges_value == "None" then
    let data1 :=
      { st.data with
        edges := st.data.edges.map (fun edge => { edge with width := DEFAULT_EDGE_SIZE }) }
    let st1 := refilterEdges { st with data := data1 }
    (st1, Except.ok st1.filtered_data)
  else
    match st.scaling_vars.edge.lookup size_edges_value with
    | none => (st, Except.error ())
    | some b =>
      let pass := applyEdgeSizes b.min b.max size_edges_value st.data.edges
      let st1 := { st with data := { st.data with edges := pass.1 } }
      if pass.2 then
        let st2 := refilterEdges st1
        (st2, Except.ok st2.filtered_data)
      else (st1, Except.error ())

/-- Strip the volatile `hidden` mark (for stating frame properties of the
search callback). -/
def stripHidden (n : NodeRec) : NodeRec := { n with hidden := false }

/-- C3: the search operation does not mutate the underlying full dataset.
`_callback_search_graph` never writes `self`; the instance state (hence
every node record of `self.data`) is returned unchanged for every search
string, and the returned snapshot differs from the displayed snapshot at
most in the `hidden` marks of its nodes. -/
theorem search_graph_preserves_data (st : JaalState) (gd : GraphData) (s : String) :
    (callback_search_graph st gd s).1 = st ∧
    (callback_search_graph st gd s).2.edges = gd.edges ∧
    (callback_search_graph st gd s).2.nodes.map stripHidden = gd.nodes.map stripHidden := by
  refine ⟨rfl, rfl, ?_⟩
  unfold callback_search_graph
  simp only [List.map_map]
  apply List.map_congr_left
  intro n _
  by_cases h : containsCI n.label s = true <;> simp [stripHidden, h]

/-- C7: after `_callback_search_graph`, a node is marked hidden iff its
label does not contain the search string case-insensitively; the empty
search string leaves no node hidden. -/
theorem search_hidden_iff (st : JaalState) (gd : GraphData) (s : String) :
    (∀ n ∈ (callback_search_graph st gd s).2.nodes,
        (n.hidden = true ↔ containsCI n.label s = false)) ∧
    (s = "" → ∀ n ∈ (callback_search_graph st gd s).2.nodes, n.hidden = false) := by
  constructor
  · intro n hn
    unfold callback_search_graph at hn
    simp only [List.mem_map] at hn
    obtain ⟨m, _, rfl⟩ := hn
    by_cases h : containsCI m.label s = true
    · simp [h]
    · have h2 : containsCI m.label s = false := by
        revert h; cases containsCI m.label s <;> simp
      simp [h2]
  · rintro rfl n hn
    unfold callback_search_graph at hn
    simp only [List.mem_map] at hn
    obtain ⟨m, _, rfl⟩ := hn
    simp [containsCI_empty]

/-- C8: when the filter expression fails to evaluate, both
`_callback_filter_nodes` and `_callback_filter_edges` catch the failure
internally (they return normally rather than raising), return the full
dataset as the displayed snapshot, and revert the filtered view to the full
dataset. -/
theorem filter_error_reverts (st st2 : JaalState) (gd gd2 : GraphData) (fl : Flags) :
    ((callback_filter_nodes st gd (Except.error ()) fl).2 = st.data ∧
     (callback_filter_nodes st gd (Except.error ()) fl).1.filtered_data = st.data ∧
     (callback_filter_nodes st gd (Except.error ()) fl).1.data = st.data) ∧
    ((callback_filter_edges st2 gd2 (Except.error ())).2 = st2.data ∧
     (callback_filter_edges st2 gd2 (Except.error ())).1.filtered_data = st2.data ∧
     (callback_filter_edges st2 gd2 (Except.error ())).1.data = st2.data) :=
  ⟨⟨rfl, rfl, rfl⟩, ⟨rfl, rfl, rfl⟩⟩

/-- C4 (amended): on a successful evaluation, `_callback_filter_edges`
evaluates the expression against the full edge table and rebuilds the
filtered edge collection to exactly the matching edge identifiers, but on
top of the FULL dataset: the node collection of the filtered view is reset
to the full node collection rather than preserved. -/
theorem filter_edges_rebuild (st : JaalState) (gd : GraphData) (p : EdgeRec → Bool) :
    (callback_filter_edges st gd (Except.ok p)).1.filtered_data.nodes = st.data.nodes ∧
    (callback_filter_edges st gd (Except.ok p)).1.data = st.data ∧
    ∀ e, e ∈ (callback_filter_edges st gd (Except.ok p)).1.filtered_data.edges ↔
      (e ∈ st.data.edges ∧ ∃ d ∈ st.data.edges, p d = true ∧ d.id = e.id) := by
  refine ⟨rfl, rfl, ?_⟩
  intro e
  show e ∈ st.data.edges.filter (fun e =>
      ((st.data.edges.filter p).map (fun d => d.id)).contains e.id) ↔ _
  rw [List.mem_filter]
  constructor
  · rintro ⟨he, hc⟩
    refine ⟨he, ?_⟩
    rw [List.elem_iff] at hc
    obtain ⟨d, hd, hdid⟩ := List.mem_map.1 hc
    obtain ⟨hdE, hdp⟩ := List.mem_filter.1 hd
    exact ⟨d, hdE, hdp, hdid⟩
  · rintro ⟨he, d, hdE, hdp, hdid⟩
    refine ⟨he, ?_⟩
    rw [List.elem_iff]
    exact List.mem_map.2 ⟨d, List.mem_filter.2 ⟨hdE, hdp⟩, hdid⟩

/-- Concrete fixture: node A. -/
def nA : NodeRec := ⟨"A", "Alpha", 1, "c", false, []⟩

/-- Concrete fixture: node B. -/
def nB : NodeRec := ⟨"B", "Beta", 1, "c", false, []⟩

/-- Concrete fixture: the edge A -> B. -/
def eAB : EdgeRec := ⟨"e1", "A", "B", 1, "c", []⟩

/-- Concrete fixture: empty scaling bounds. -/
def svEmpty : ScalingVars := ⟨[], []⟩

/-- Concrete fixture: all four checkboxes on. -/
def flagsT : Flags := ⟨true, true, true, true⟩

/-- Concrete fixture: a state whose filtered view shows only node A while
the full dataset holds A and B. -/
def stPrev : JaalState := ⟨⟨[nA, nB], [eAB]⟩, svEmpty, ⟨[nA], []⟩, flagsT⟩

/-- C4 (counterexample): with a previously filtered view showing only node
A, a successful edge filter leaves the filtered node collection equal to
the full node collection [A, B]: the prior filtered node collection [A] is
reset, not preserved. -/
theorem filter_edges_resets_nodes_cex :
    (callback_filter_edges stPrev stPrev.filtered_data
        (Except.ok (fun _ => true))).1.filtered_data.nodes = [nA, nB] ∧
    stPrev.filtered_data.nodes = [nA] ∧ ([nA, nB] : List NodeRec) ≠ [nA] :=
  ⟨rfl, rfl, fun h => by simpa using congrArg List.length h⟩

/-- Concrete fixture: a node carrying the numeric attribute `val = 5`. -/
def nVal : NodeRec := ⟨"A", "Alpha", 1, "c", false, [("val", AVal.num 5)]⟩

/-- Concrete fixture: an edge carrying the numeric attribute `val = 5`. -/
def eVal : EdgeRec := ⟨"e1", "A", "B", 1, "c", [("val", AVal.num 5)]⟩

/-- Concrete fixture: degenerate scaling bounds min = max = 5 for `val`. -/
def svDeg : ScalingVars := ⟨[("val", ⟨5, 5⟩)], [("val", ⟨5, 5⟩)]⟩

/-- Concrete fixture: a state with degenerate scaling bounds. -/
def stDeg : JaalState := ⟨⟨[nVal], [eVal]⟩, svDeg, ⟨[nVal], [eVal]⟩, flagsT⟩

/-- C1: the sizing callbacks contain no guard for degenerate scaling
bounds.  With min = max the unguarded `scale_val` divides by zero, so at
this concrete input both operations raise (modelled `Except.error`) before
touching any element, instead of producing the defined fallback (e.g.
scale factor 0) that the specification requires of the implementation. -/
theorem size_degenerate_bounds_raise :
    (callback_size_nodes stDeg stDeg.filtered_data "val").2 = Except.error () ∧
    (callback_size_edges stDeg stDeg.filtered_data "val").2 = Except.error () ∧
    (callback_size_nodes stDeg stDeg.filtered_data "val").1 = stDeg ∧
    (callback_size_edges stDeg stDeg.filtered_data "val").1 = stDeg := by
  have h0 : ((5:ℚ) - 5) = 0 := by norm_num
  unfold callback_size_nodes callback_size_edges
  simp [stDeg, svDeg, nVal, eVal, applyNodeSizes, applyEdgeSizes, nodeAttr, edgeAttr,
    List.lookup, h0]

/-- C5 (counterexample): invoked with the attribute name "absent", which no
node of the dataset carries, `_callback_color_nodes` raises (the model
returns `Except.error`, standing for the uncaught `KeyError`); it does not
fall back to the full dataset. -/
theorem color_missing_attr_cex :
    (callback_color_nodes stDeg stDeg.filtered_data "absent").2 = Except.error () ∧
    (callback_color_nodes stDeg stDeg.filtered_data "absent").1 = stDeg :=
  ⟨rfl, rfl⟩

/-- C5 (amended): when a color or size operation is invoked with a
non-sentinel attribute name that is missing from the data (for colors) or
from the scaling-bounds table (for sizes), the lookup failure propagates
out of the operation as an uncaught error - there is no catch and no
fallback to the full dataset - and the instance state is left unchanged. -/
theorem missing_attr_propagates (st : JaalState) (gd : GraphData) (v : String)
    (hv : (v == "None") = false)
    (hn : (st.data.nodes.any (fun n => (nodeAttr n v).isSome)) = false)
    (he : (st.data.edges.any (fun e => (edgeAttr e v).isSome)) = false)
    (hsn : st.scaling_vars.node.lookup v = none)
    (hse : st.scaling_vars.edge.lookup v = none) :
    (callback_color_nodes st gd v).2 = Except.error () ∧
    (callback_color_nodes st gd v).1 = st ∧
    (callback_color_edges st gd v).2 = Except.error () ∧
    (callback_color_edges st gd v).1 = st ∧
    (callback_size_nodes st gd v).2 = Except.error () ∧
    (callback_size_nodes st gd v).1 = st ∧
    (callback_size_edges st gd v).2 = Except.error () ∧
    (callback_size_edges st gd v).1 = st := by
  unfold callback_color_nodes callback_color_edges callback_size_nodes callback_size_edges
  simp [hv, hn, he, hsn, hse]

/-- Witness for the amended C5 at a concrete input: the attribute "absent"
is carried by no node, no edge, and no scaling-bounds entry of `stDeg`. -/
theorem missing_attr_propagates_witness :
    (callback_color_nodes stDeg stDeg.filtered_data "absent").2 = Except.error () ∧
    (callback_color_nodes stDeg stDeg.filtered_data "absent").1 = stDeg ∧
    (callback_color_edges stDeg stDeg.filtered_data "absent").2 = Except.error () ∧
    (callback_color_edges stDeg stDeg.filtered_data "absent").1 = stDeg ∧
    (callback_size_nodes stDeg stDeg.filtered_data "absent").2 = Except.error () ∧
    (callback_size_nodes stDeg stDeg.filtered_data "absent").1 = stDeg ∧
    (callback_size_edges stDeg stDeg.filtered_data "absent").2 = Except.error () ∧
    (callback_size_edges stDeg stDeg.filtered_data "absent").1 = stDeg :=
  missing_attr_propagates stDeg stDeg.filtered_data "absent"
    (by decide) (by decide) (by decide) (by decide) (by decide)

/-- C2: `_get_related_nodes` terminates on every finite graph (cyclic or
not) and every seed set - the embedding `relExpand` is total, and some
finite fuel makes the literal recursion `relExpandF` reach its value - and
every node id in its result is reachable from some seed id via edges of the
original edge set (followed in either direction, exactly as the source
follows both `from` and `to` matches). -/
theorem get_related_nodes_terminating_reachable (f : Flags) (seeds : List String)
    (E : List EdgeRec) :
    (∃ n, relExpandF f n seeds E = some ((relExpand f seeds E).val)) ∧
    (∀ x ∈ relExpandIds f seeds E, ReachableFrom E seeds x) :=
  ⟨relExpand_reached f seeds E, relExpandIds_reach f seeds E⟩

/-- Witness for C2 at a concrete input: in the graph with the single edge
A -> B, expanding from seed A yields the id list [A, B, A], and the theorem
applied to member B produces its reachability from the seed set. -/
theorem get_related_nodes_terminating_reachable_witness :
    ReachableFrom [eAB] ["A"] "B" := by
  have h5 : relExpandF flagsT 5 ["A"] [eAB] = some (["A", "B", "A"], []) := by decide
  have hids : relExpandIds flagsT ["A"] [eAB] = ["A", "B", "A"] := by
    unfold relExpandIds
    rw [relExpandF_sound flagsT 5 _ _ _ h5]
  exact (get_related_nodes_terminating_reachable flagsT ["A"] [eAB]).2 "B"
    (by rw [hids]; decide)

/-- Concrete fixture: `include_related_org` disabled, the rest enabled. -/
def flagsNoOrg : Flags := ⟨true, false, true, true⟩

/-- Concrete fixture: a node whose id contains the marker "org". -/
def nOrg : NodeRec := ⟨"org1", "Org One", 1, "c", false, []⟩

/-- C9 (counterexample): with `include_related_org` disabled and the seed
"org1" itself containing the marker, the list returned by
`_get_related_nodes` still contains "org1": the expansion re-emits every
processed id, and seed ids never pass through `_filter_entities`. -/
theorem expansion_emits_marked_seed_cex :
    flagsNoOrg.include_related_org = false ∧
    strContains "org1" "org" = true ∧
    "org1" ∈ relExpandIds flagsNoOrg ["org1"] [] := by
  refine ⟨rfl, by decide, ?_⟩
  have h2 : relExpandF flagsNoOrg 2 ["org1"] [] = some (["org1"], []) := by decide
  unfold relExpandIds
  rw [relExpandF_sound flagsNoOrg 2 _ _ _ h2]
  decide

/-- C9 (amended): when a category-exclusion flag is disabled, no node other
than a seed whose identifier contains the corresponding marker substring
appears in the result of `_get_related_nodes`; the seed ids themselves
bypass `_filter_entities` and are re-emitted unfiltered. -/
theorem expansion_excludes_marked_nonseeds (f : Flags) (seeds : List String)
    (E : List EdgeRec) (x : String) (hx : x ∈ relExpandIds f seeds E)
    (hns : x ∉ seeds) :
    (f.include_related_org = false → strContains x "org" = false) ∧
    (f.include_related_wf = false → strContains x "wf" = false) ∧
    (f.include_related_tables = false → strContains x "table" = false) := by
  rcases relExpandIds_mem f seeds E x hx with hin | hcl
  · exact absurd hin hns
  · unfold cleanId at hcl
    rw [Bool.and_eq_true, Bool.and_eq_true] at hcl
    refine ⟨fun h => ?_, fun h => ?_, fun h => ?_⟩
    · have := hcl.1
      rw [h] at this
      simpa using this
    · have := hcl.2.1
      rw [h] at this
      simpa using this
    · have := hcl.2.2
      rw [h] at this
      simpa using this

/-- Witness for the amended C9 at a concrete input: in the graph A -> B
with `include_related_org` disabled, B is a non-seed member of the
expansion from seed A, so no disabled marker occurs in it. -/
theorem expansion_excludes_marked_nonseeds_witness :
    (flagsNoOrg.include_related_org = false → strContains "B" "org" = false) ∧
    (flagsNoOrg.include_related_wf = false → strContains "B" "wf" = false) ∧
    (flagsNoOrg.include_related_tables = false → strContains "B" "table" = false) := by
  have h5 : relExpandF flagsNoOrg 5 ["A"] [eAB] = some (["A", "B", "A"], []) := by decide
  have hids : relExpandIds flagsNoOrg ["A"] [eAB] = ["A", "B", "A"] := by
    unfold relExpandIds
    rw [relExpandF_sound flagsNoOrg 5 _ _ _ h5]
  exact expansion_excludes_marked_nonseeds flagsNoOrg ["A"] [eAB] "B"
    (by rw [hids]; decide) (by decide)

/-- Concrete fixture: a dataset whose only node carries the "org" marker. -/
def stOrg : JaalState := ⟨⟨[nOrg], []⟩, svEmpty, ⟨[nOrg], []⟩, flagsT⟩

/-- C10: category exclusion never applies to seed nodes.  With
`include_related_org` disabled, a node whose id contains "org" but is
matched directly by the query still appears in the filtered result of
`_callback_filter_nodes`: `_filter_entities` is applied only to related
candidates discovered during expansion, never to the query matches. -/
theorem seeds_bypass_exclusion :
    flagsNoOrg.include_related_org = false ∧
    strContains "org1" "org" = true ∧
    "org1" ∈ ((callback_filter_nodes stOrg stOrg.data
        (Except.ok (fun n => n.id == "org1")) flagsNoOrg).1.filtered_data.nodes.map
        (fun n => n.id)) := by
  refine ⟨rfl, by decide, ?_⟩
  have h2 : relExpandF flagsNoOrg 2 ["org1"] [] = some (["org1"], []) := by decide
  have hids : relExpandIds flagsNoOrg ["org1"] [] = ["org1"] := by
    unfold relExpandIds
    rw [relExpandF_sound flagsNoOrg 2 _ _ _ h2]
  have h1 : callback_filter_nodes stOrg stOrg.data
      (Except.ok (fun n => n.id == "org1")) flagsNoOrg =
      filterNodesAssemble stOrg flagsNoOrg ["org1"]
        (relExpandIds flagsNoOrg ["org1"] []) := rfl
  rw [h1, hids]
  decide

/-- Concrete fixture: full dataset A, B with edge A -> B, nothing filtered. -/
def stAB : JaalState := ⟨⟨[nA, nB], [eAB]⟩, svEmpty, ⟨[nA, nB], [eAB]⟩, flagsT⟩

/-- C6 (counterexample): `_callback_filter_nodes` with related-entity
expansion appends the same node record repeatedly: filtering for node A in
the graph A -> B yields the node id list [A, A, B, A] in the filtered view,
so node identifiers are not unique after this operation. -/
theorem filter_nodes_duplicates_cex :
    ((callback_filter_nodes stAB stAB.data (Except.ok (fun n => n.id == "A"))
        flagsT).1.filtered_data.nodes.map (fun n => n.id)) = ["A", "A", "B", "A"] ∧
    ¬ (["A", "A", "B", "A"] : List String).Nodup := by
  constructor
  · have h5 : relExpandF flagsT 5 ["A"] [eAB] = some (["A", "B", "A"], []) := by decide
    have hids : relExpandIds flagsT ["A"] [eAB] = ["A", "B", "A"] := by
      unfold relExpandIds
      rw [relExpandF_sound flagsT 5 _ _ _ h5]
    have h1 : callback_filter_nodes stAB stAB.data (Except.ok (fun n => n.id == "A"))
        flagsT = filterNodesAssemble stAB flagsT ["A"]
          (relExpandIds flagsT ["A"] [eAB]) := rfl
    rw [h1, hids]
    decide
  · decide

/-- The containment half of the data-model invariant of the spec: every
node and edge identifier of the filtered view occurs in the full dataset. -/
def viewContained (st : JaalState) : Prop :=
  (∀ n ∈ st.filtered_data.nodes, ∃ m ∈ st.data.nodes, m.id = n.id) ∧
  (∀ e ∈ st.filtered_data.edges, ∃ d ∈ st.data.edges, d.id = e.id)

theorem lookupIds_mem (ns : List NodeRec) :
    ∀ (ids : List String) (l : List NodeRec), lookupIds ns ids = Except.ok l →
      ∀ n ∈ l, n ∈ ns := by
  intro ids
  induction ids with
  | nil =>
    intro l h n hn
    obtain rfl : ([] : List NodeRec) = l := Except.ok.inj h
    cases hn
  | cons i rest ih =>
    intro l h n hn
    unfold lookupIds at h
    cases hf : findNode ns i with
    | none =>
      simp only [hf] at h
      exact Except.noConfusion h
    | some m =>
      simp only [hf] at h
      cases hr : lookupIds ns rest with
      | error e =>
        simp only [hr] at h
        exact Except.noConfusion h
      | ok l2 =>
        simp only [hr] at h
        obtain rfl : m :: l2 = l := Except.ok.inj h
        rcases List.mem_cons.1 hn with rfl | hn2
        · exact List.mem_of_find?_eq_some hf
        · exact ih l2 hr n hn2

theorem applyNodeColors_ids (m : List (AVal × String)) (v : String) :
    ∀ l : List NodeRec,
      ((applyNodeColors m v l).1).map (fun n => n.id) = l.map (fun n => n.id) := by
  intro l
  induction l with
  | nil => rfl
  | cons n rest ih =>
    unfold applyNodeColors
    cases h : nodeAttr n v with
    | none => simp
    | some a => simp [ih]

theorem applyEdgeColors_ids (m : List (AVal × String)) (v : String) :
    ∀ l : List EdgeRec,
      ((applyEdgeColors m v l).1).map (fun e => e.id) = l.map (fun e => e.id) := by
  intro l
  induction l with
  | nil => rfl
  | cons e rest ih =>
    unfold applyEdgeColors
    cases h : edgeAttr e v with
    | none => simp
    | some a => simp [ih]

theorem applyNodeSizes_ids (minn maxx : ℚ) (v : String) :
    ∀ l : List NodeRec,
      ((applyNodeSizes minn maxx v l).1).map (fun n => n.id) = l.map (fun n => n.id) := by
  intro l
  induction l with
  | nil => rfl
  | cons n rest ih =>
    unfold applyNodeSizes
    cases h : nodeAttr n v with
    | none => simp
    | some a =>
      cases a with
      | num x =>
        by_cases hz : (maxx - minn == 0) = true
        · simp [hz]
        · simp [hz, ih]
      | str s => simp

theorem applyEdgeSizes_ids (minn maxx : ℚ) (v : String) :
    ∀ l : List EdgeRec,
      ((applyEdgeSizes minn maxx v l).1).map (fun e => e.id) = l.map (fun e => e.id) := by
  intro l
  induction l with
  | nil => rfl
  | cons e rest ih =>
    unfold applyEdgeSizes
    cases h : edgeAttr e v with
    | none => simp
    | some a =>
      cases a with
      | num x =>
        by_cases hz : (maxx - minn == 0) = true
        · simp [hz]
        · simp [hz, ih]
      | str s => simp

theorem vc_refilterNodes (st : JaalState)
    (he : ∀ e ∈ st.filtered_data.edges, ∃ d ∈ st.data.edges, d.id = e.id) :
    viewContained (refilterNodes st) :=
  ⟨fun n hn => ⟨n, (List.mem_filter.1 hn).1, rfl⟩, he⟩

theorem vc_refilterEdges (st : JaalState)
    (hn : ∀ n ∈ st.filtered_data.nodes, ∃ m ∈ st.data.nodes, m.id = n.id) :
    viewContained (refilterEdges st) :=
  ⟨hn, fun e he => ⟨e, (List.mem_filter.1 he).1, rfl⟩⟩

theorem vc_set_nodes (st : JaalState) (nodes1 : List NodeRec)
    (hid : nodes1.map (fun n => n.id) = st.data.nodes.map (fun n => n.id))
    (h : viewContained st) :
    viewContained { st with data := { st.data with nodes := nodes1 } } := by
  constructor
  · intro n hn
    obtain ⟨m, hm, hmid⟩ := h.1 n hn
    have hmem : m.id ∈ nodes1.map (fun n => n.id) := by
      rw [hid]
      exact List.mem_map_of_mem _ hm
    obtain ⟨m2, hm2, hm2id⟩ := List.mem_map.1 hmem
    exact ⟨m2, hm2, by rw [hm2id, hmid]⟩
  · exact h.2

theorem vc_set_edges (st : JaalState) (edges1 : List EdgeRec)
    (hid : edges1.map (fun e => e.id) = st.data.edges.map (fun e => e.id))
    (h : viewContained st) :
    viewContained { st with data := { st.data with edges := edges1 } } := by
  constructor
  · exact h.1
  · intro e he
    obtain ⟨d, hd, hdid⟩ := h.2 e he
    have hmem : d.id ∈ edges1.map (fun e => e.id) := by
      rw [hid]
      exact List.mem_map_of_mem _ hd
    obtain ⟨d2, hd2, hd2id⟩ := List.mem_map.1 hmem
    exact ⟨d2, hd2, by rw [hd2id, hdid]⟩

theorem vc_assemble (st : JaalState) (fl : Flags) (found rel : List String) :
    viewContained (filterNodesAssemble st fl found rel).1 := by
  unfold filterNodesAssemble
  cases hl : lookupIds st.data.nodes (found ++ rel) with
  | error e => exact ⟨fun n hn => ⟨n, hn, rfl⟩, fun e2 he => ⟨e2, he, rfl⟩⟩
  | ok nodes =>
    exact ⟨fun n hn => ⟨n, lookupIds_mem _ _ _ hl n hn, rfl⟩,
      fun e2 he => ⟨e2, he, rfl⟩⟩

theorem vc_filter_nodes (st : JaalState) (gd : GraphData)
    (qn : Except Unit (NodeRec → Bool)) (fl : Flags) :
    viewContained (callback_filter_nodes st gd qn fl).1 := by
  cases qn with
  | error e => exact ⟨fun n hn => ⟨n, hn, rfl⟩, fun e2 he => ⟨e2, he, rfl⟩⟩
  | ok p => exact vc_assemble st fl _ _

theorem vc_filter_edges (st : JaalState) (gd : GraphData)
    (qe : Except Unit (EdgeRec → Bool)) :
    viewContained (callback_filter_edges st gd qe).1 := by
  cases qe with
  | error e => exact ⟨fun n hn => ⟨n, hn, rfl⟩, fun e2 he => ⟨e2, he, rfl⟩⟩
  | ok p =>
    exact ⟨fun n hn => ⟨n, hn, rfl⟩, fun e2 he => ⟨e2, (List.mem_filter.1 he).1, rfl⟩⟩

theorem vc_color_nodes (st : JaalState) (gd : GraphData) (v : String)
    (h : viewContained st) : viewContained (callback_color_nodes st gd v).1 := by
  simp only [callback_color_nodes]
  by_cases h1 : (v == "None") = true
  · rw [if_pos h1]
    exact vc_refilterNodes _ h.2
  · rw [if_neg h1]
    split_ifs with h2 h3
    · exact h
    · exact vc_refilterNodes _ h.2
    · exact vc_set_nodes st _ (applyNodeColors_ids _ _ _) h

theorem vc_color_edges (st : JaalState) (gd : GraphData) (v : String)
    (h : viewContained st) : viewContained (callback_color_edges st gd v).1 := by
  simp only [callback_color_edges]
  by_cases h1 : (v == "None") = true
  · rw [if_pos h1]
    exact vc_refilterEdges _ h.1
  · rw [if_neg h1]
    split_ifs with h2 h3
    · exact h
    · exact vc_refilterEdges _ h.1
    · exact vc_set_edges st _ (applyEdgeColors_ids _ _ _) h

theorem vc_size_nodes (st : JaalState) (gd : GraphData) (v : String)
    (h : viewContained st) : viewContained (callback_size_nodes st gd v).1 := by
  simp only [callback_size_nodes]
  by_cases h1 : (v == "None") = true
  · rw [if_pos h1]
    exact vc_refilterNodes _ h.2
  · rw [if_neg h1]
    cases hb : st.scaling_vars.node.lookup v with
    | none => exact h
    | some b =>
      simp only []
      split_ifs with hp
      · exact vc_refilterNodes _ h.2
      · exact vc_set_nodes st _ (applyNodeSizes_ids _ _ _ _) h

theorem vc_size_edges (st : JaalState) (gd : GraphData) (v : String)
    (h : viewContained st) : viewContained (callback_size_edges st gd v).1 := by
  simp only [callback_size_edges]
  by_cases h1 : (v == "None") = true
  · rw [if_pos h1]
    exact vc_refilterEdges _ h.1
  · rw [if_neg h1]
    cases hb : st.scaling_vars.edge.lookup v with
    | none => exact h
    | some b =>
      simp only []
      split_ifs with hp
      · exact vc_refilterEdges _ h.1
      · exact vc_set_edges st _ (applyEdgeSizes_ids _ _ _ _) h

/-- C6 (amended): after every operation, every node and edge identifier of
the filtered view occurs in the full dataset (the containment invariant is
established or preserved by each callback); node-identifier uniqueness,
however, does NOT hold in general - `_callback_filter_nodes` with
related-entity expansion can append the same node record repeatedly. -/
theorem view_contained_preserved (st : JaalState) (gd : GraphData) (s v : String)
    (qn : Except Unit (NodeRec → Bool)) (qe : Except Unit (EdgeRec → Bool))
    (fl : Flags) (h : viewContained st) :
    viewContained (callback_search_graph st gd s).1 ∧
    viewContained (callback_filter_nodes st gd qn fl).1 ∧
    viewContained (callback_filter_edges st gd qe).1 ∧
    viewContained (callback_color_nodes st gd v).1 ∧
    viewContained (callback_color_edges st gd v).1 ∧
    viewContained (callback_size_nodes st gd v).1 ∧
    viewContained (callback_size_edges st gd v).1 :=
  ⟨h, vc_filter_nodes st gd qn fl, vc_filter_edges st gd qe,
   vc_color_nodes st gd v h, vc_color_edges st gd v h,
   vc_size_nodes st gd v h, vc_size_edges st gd v h⟩

/-- Witness for the amended C6 at a concrete input: the fixture `stAB`
(whose filtered view initially equals the full dataset) satisfies the
containment invariant after each of the seven operations. -/
theorem view_contained_preserved_witness :
    viewContained (callback_search_graph stAB stAB.data "x").1 ∧
    viewContained (callback_filter_nodes stAB stAB.data
      (Except.ok (fun n => n.id == "A")) flagsT).1 ∧
    viewContained (callback_filter_edges stAB stAB.data
      (Except.ok (fun _ => true))).1 ∧
    viewContained (callback_color_nodes stAB stAB.data "val").1 ∧
    viewContained (callback_color_edges stAB stAB.data "val").1 ∧
    viewContained (callback_size_nodes stAB stAB.data "val").1 ∧
    viewContained (callback_size_edges stAB stAB.data "val").1 :=
  view_contained_preserved stAB stAB.data "x" "val"
    (Except.ok (fun n => n.id == "A")) (Except.ok (fun _ => true)) flagsT
    ⟨fun n hn => ⟨n, hn, rfl⟩, fun e he => ⟨e, he, rfl⟩⟩

/-- Witness for C7 at a concrete input: searching the dataset A, B with the
empty string leaves the (first) returned node unhidden. -/
theorem search_hidden_iff_witness :
    ({ nA with hidden := false } : NodeRec).hidden = false := by
  have hlist : (callback_search_graph stAB stAB.data "").2.nodes =
      [{ nA with hidden := false }, { nB with hidden := false }] := by
    simp [callback_search_graph, stAB, nA, nB, containsCI_empty]
  exact (search_hidden_iff stAB stAB.data "").2 rfl { nA with hidden := false }
    (by rw [hlist]; exact List.mem_cons_self _ _)
